import Mathlib

/-
Shallow embedding of the qserv test data loader (tests/QservDataLoader.py).

The loader's pure computations (chunk-id discovery from store relation
names, empty-chunk manifest construction, meta-table SQL generation,
partitioner command construction) are embedded as Lean functions; the
filesystem side effects of export-directory provisioning are embedded as
explicit state passing over a small filesystem model; the subprocess
pipeline of loadPartitionedTable is embedded as a function producing a
trace of the external actions it performs together with an Except result.
-/

namespace QservLoader

/-! ### Chunk-id discovery (workerGetNonEmptyChunkIds) -/

/-- Decimal value of a digit list, as Python int() on a digit string. -/
def digitsVal (ds : List Char) : Nat :=
  ds.foldl (fun a c => 10 * a + (c.toNat - 48)) 0

/-- The regex `^Object_([0-9]+)$` of workerGetNonEmptyChunkIds: a name
matches when it is the literal `Object_` followed by one or more digits;
the extracted chunk id is the decimal value of the digit suffix. -/
def matchObjectChunk (name : List Char) : Option Nat :=
  if "Object_".toList.isPrefixOf name then
    let ds := name.drop 7
    if ds ≠ [] ∧ ds.all Char.isDigit then some (digitsVal ds) else none
  else none

/-- The SQL query `SHOW TABLES IN db LIKE "Object\_%"`: keeps the relation
names beginning with the literal `Object_`. -/
def likeObjectRows (tables : List (List Char)) : List (List Char) :=
  tables.filter (fun n => "Object_".toList.isPrefixOf n)

/-- The row-processing loop of workerGetNonEmptyChunkIds: apply the regex
to each returned row, collect the extracted ids, and sort them
(Python `sorted`). -/
def chunkIdsOfRows (rows : List (List Char)) : List Nat :=
  List.insertionSort (· ≤ ·) (rows.filterMap matchObjectChunk)

/-- workerGetNonEmptyChunkIds over a store state given as the list of
existing relation names: issue the LIKE query and process its rows. -/
def workerGetNonEmptyChunkIds (tables : List (List Char)) : List Nat :=
  chunkIdsOfRows (likeObjectRows tables)

/-- workerGetNonEmptyChunkIds over a store state that also records each
relation's row count; the discovery only ever consults the names. -/
def workerGetNonEmptyChunkIdsStore (store : List (List Char × Nat)) : List Nat :=
  workerGetNonEmptyChunkIds (store.map Prod.fst)

/-! ### Empty-chunk manifest (masterCreateEmptyChunksFile) -/

/-- The list comprehension of masterCreateEmptyChunksFile:
`[i for i in range(0,7201) if i not in chunk_id_list]`. -/
def emptyChunksList (chunkIdList : List Nat) : List Nat :=
  (List.range 7201).filter (fun i => !(chunkIdList.contains i))

/-- The write loop of masterCreateEmptyChunksFile: `f.write("%s\n" % i)`
for each manifest entry. -/
def writeLines : List Nat → String
  | [] => ""
  | i :: rest => toString i ++ "\n" ++ writeLines rest

/-- masterCreateEmptyChunksFile: the content written to
`empty_chunks_filename`. The `stripes` argument is accepted and unused,
as in the source. -/
def masterCreateEmptyChunksFile (stripes : String) (chunkIdList : List Nat) : String :=
  writeLines (emptyChunksList chunkIdList)

/-! ### Meta table SQL (masterCreateAndFeedMetaTable) -/

/-- Python str.lower, character by character. -/
def strLower (s : String) : String := ⟨s.data.map Char.toLower⟩

/-- The header of the SQL script of masterCreateAndFeedMetaTable:
`USE qservMeta;` followed by the CREATE TABLE statement. -/
def metaCreateSql (table : String) : String :=
  "USE qservMeta;" ++ "CREATE TABLE LSST__" ++ table ++ " (" ++ strLower table ++
    "Id BIGINT NOT NULL PRIMARY KEY, x_chunkId INT, x_subChunkId INT);\n"

/-- The per-chunk INSERT statement of masterCreateAndFeedMetaTable. -/
def metaInsertSql (db table : String) (chunkId : Nat) : String :=
  "INSERT INTO LSST__" ++ table ++ " SELECT " ++ strLower table ++
    "Id, chunkId, subChunkId FROM " ++ db ++ "." ++ table ++ "_" ++ toString chunkId ++ ";"

/-- masterCreateAndFeedMetaTable: the SQL script passed to the store, built
by the source's accumulation loop over the chunk-id list. -/
def masterCreateAndFeedMetaTable (db table : String) (chunkIdList : List Nat) : String :=
  chunkIdList.foldl (fun sql c => sql ++ "\n" ++ metaInsertSql db table c) (metaCreateSql table)

/-- Substring test on character lists (used to state which statements occur
in a generated SQL script). -/
def containsSub (pat : List Char) : List Char → Bool
  | [] => pat.isEmpty
  | c :: rest => pat.isPrefixOf (c :: rest) || containsSub pat rest

/-! ### Data configuration (getDataConfig) -/

/-- The per-table entries of the data_config dictionary built by
getDataConfig: ra-column, decl-column and the optional chunk-column-id. -/
structure TableDataConfig where
  raColumn : Nat
  declColumn : Nat
  chunkColumnId : Option Nat
deriving DecidableEq

/-- The full data_config dictionary of getDataConfig. -/
structure DataConfig where
  objectCfg : TableDataConfig
  sourceCfg : TableDataConfig
deriving DecidableEq

/-- getDataConfig: the coordinate column indices come from the schema
(abstracted as inputs); Object's chunk-column-id is the hard-coded 227 and
Source's chunk-column-id is None. -/
def getDataConfig (objectRa objectDecl sourceRa sourceDecl : Nat) : DataConfig :=
  { objectCfg := { raColumn := objectRa, declColumn := objectDecl, chunkColumnId := some 227 }
    sourceCfg := { raColumn := sourceRa, declColumn := sourceDecl, chunkColumnId := none } }

/-! ### Partitioner command (partitionData) -/

/-- The partition_data_cmd argument list built by partitionData: the fixed
flag pairs, then the optional chunk-column pair, then the input file as
the final positional argument. -/
def partitionCmdArgv (python scriptname dirname : String) (tcfg : TableDataConfig)
    (table stripes substripes dataFilename : String) : List String :=
  ([python, scriptname,
    "--output-dir", dirname,
    "--chunk-prefix", table,
    "--theta-column", toString tcfg.raColumn,
    "--phi-column", toString tcfg.declColumn,
    "--num-stripes", stripes,
    "--num-sub-stripes", substripes,
    "--delimiter", "\t"] ++
   (match tcfg.chunkColumnId with
    | some i => ["--chunk-column", toString i]
    | none => [])) ++ [dataFilename]

/-! ### Filesystem model (workerCreateXrootdExportDirs, partitionData) -/

/-- Component-wise path ordering: `pathLe d p` holds when `p` is `d` or
lies beneath `d`. -/
def pathLe : List String → List String → Bool
  | [], _ => true
  | _ :: _, [] => false
  | a :: as, b :: bs => a == b && pathLe as bs

/-- A filesystem state: the existing regular files (path with byte size)
and the existing directories. -/
structure FS where
  files : List (List String × Nat)
  dirs : List (List String)

/-- os.path.exists: the path is a directory or a regular file. -/
def pathExists (fs : FS) (p : List String) : Bool :=
  fs.dirs.any (fun d => d == p) || fs.files.any (fun e => e.1 == p)

/-- shutil.rmtree: removes the directory and everything beneath it. -/
def rmtree (fs : FS) (d : List String) : FS :=
  { files := fs.files.filter (fun e => !(pathLe d e.1))
    dirs := fs.dirs.filter (fun x => !(pathLe d x)) }

/-- The nonempty leading segments of a path, shortest first. -/
def ancestors (p : List String) : List (List String) :=
  (List.range p.length).map (fun k => p.take (k + 1))

/-- os.makedirs: creates the directory and any missing intermediate
directories. -/
def makedirs (fs : FS) (d : List String) : FS :=
  { files := fs.files, dirs := ancestors d ++ fs.dirs }

/-- `open(path, "w").close()`: creates (or truncates) a zero-byte file. -/
def touch (fs : FS) (p : List String) : FS :=
  { files := (p, 0) :: fs.files.filter (fun e => !(e.1 == p)), dirs := fs.dirs }

/-- Well-formed filesystem: every proper nonempty leading segment of an
existing file or directory path is itself an existing directory. -/
def wfFS (fs : FS) : Bool :=
  fs.files.all (fun e => (List.range (e.1.length - 1)).all
    (fun k => fs.dirs.any (fun d => d == e.1.take (k + 1)))) &&
  fs.dirs.all (fun x => (List.range (x.length - 1)).all
    (fun k => fs.dirs.any (fun d => d == x.take (k + 1))))

/-- The xrootd query directory `base_dir/xrootd-run/q/<db>`. -/
def xrdQueryDir (baseDir db : String) : List String :=
  [baseDir, "xrootd-run", "q", db]

/-- The xrootd result directory `base_dir/xrootd-run/result`. -/
def xrdResultDir (baseDir : String) : List String :=
  [baseDir, "xrootd-run", "result"]

/-- workerCreateXrootdExportDirs: clear and recreate the query directory,
create one zero-byte placeholder per chunk id, then clear and recreate the
result directory. -/
def workerCreateXrootdExportDirs (baseDir db : String) (ids : List Nat) (fs : FS) : FS :=
  let qd := xrdQueryDir baseDir db
  let rd := xrdResultDir baseDir
  let fs1 := if pathExists fs qd then rmtree fs qd else fs
  let fs2 := makedirs fs1 qd
  let fs3 := ids.foldl (fun f c => touch f (qd ++ [toString c])) fs2
  let fs4 := if pathExists fs3 rd then rmtree fs3 rd else fs3
  makedirs fs4 rd

/-! ### The loadPartitionedTable pipeline -/

/-- The configuration fields of the loader that the pipeline reads. -/
structure LoaderConfig where
  python : String
  baseDir : String
  outDirname : String
  dbName : String
  stripes : String
  substripes : String
  mysqlUser : String
  mysqlPass : String
  master : String
  mysqlPort : String

/-- A subprocess failure: the exit code and the captured output. -/
structure SubprocessFailure where
  exitCode : Nat
  output : String
deriving DecidableEq

/-- Modelled from the spec: `commons.run_command`
(module `lsst.qserv.admin.commons`, whose source is not part of this
material) — "Fails with SubprocessFailure (carrying exit code and captured
diagnostic output) on nonzero exit; the pipeline does not attempt partial
recovery". -/
def run_command (exitCode : Nat) (output : String) : Except SubprocessFailure String :=
  if exitCode = 0 then Except.ok output else Except.error ⟨exitCode, output⟩

/-- The external outcomes the pipeline observes: the exit code and output
of each subprocess, and the store relations existing after the loader
subprocess has run. -/
structure PipelineEnv where
  partitionerExit : Nat
  partitionerOut : String
  loaderExit : Nat
  loaderOut : String
  tablesAfterLoad : List (List Char)

/-- The external actions performed by one loadPartitionedTable run. -/
structure PipelineTrace where
  schemaFilesLoaded : List String
  commandsRun : List (List String)
  sqlExecuted : List String
  filesWritten : List (String × String)
  storeTables : List (List Char)
  fs : FS

/-- The partition output directory `out_dirname/<table>_partition`. -/
def partitionDirname (outDirname table : String) : List String :=
  [outDirname, table ++ "_partition"]

/-- The same directory rendered as a single command-line argument. -/
def partitionDirStr (outDirname table : String) : String :=
  outDirname ++ "/" ++ table ++ "_partition"

/-- The directory preparation of partitionData: remove the partition
output directory if present, then recreate it. -/
def partitionDataFs (fs : FS) (pd : List String) : FS :=
  makedirs (if pathExists fs pd then rmtree fs pd else fs) pd

/-- The partitioner script path
`base_dir/qserv/master/examples/partition.py`. -/
def partitionScriptname (cfg : LoaderConfig) : String :=
  cfg.baseDir ++ "/qserv/master/examples/partition.py"

/-- The loader script path `base_dir/qserv/master/examples/loader.py`. -/
def loadScriptname (cfg : LoaderConfig) : String :=
  cfg.baseDir ++ "/qserv/master/examples/loader.py"

/-- The load_partitionned_data_cmd argument list of loadPartitionedData. -/
def loaderCmdArgv (cfg : LoaderConfig) (table : String) : List String :=
  [cfg.python, loadScriptname cfg,
   "--user=" ++ cfg.mysqlUser,
   "--password=" ++ cfg.mysqlPass,
   "--database=" ++ cfg.dbName,
   cfg.master ++ ":" ++ cfg.mysqlPort,
   partitionDirStr cfg.outDirname table,
   cfg.dbName ++ "." ++ table]

/-- The CREATE TABLE statement of workerCreateTable1234567890. -/
def createTemplateSql (db table : String) : String :=
  "CREATE TABLE " ++ db ++ "." ++ table ++ "_1234567890 LIKE " ++ table ++ ";\n"

/-- The SHOW TABLES statement of workerGetNonEmptyChunkIds. -/
def showTablesSql (db : String) : String :=
  "SHOW TABLES IN " ++ db ++ " LIKE \"Object\\_%\";"

/-- The manifest path `base_dir/etc/emptyChunks.txt`. -/
def emptyChunksPath (baseDir : String) : String :=
  baseDir ++ "/etc/emptyChunks.txt"

/-- loadPartitionedTable: load the schema, prepare the partition directory
and run the partitioner, run the chunk loader, create the
`<table>_1234567890` template relation, discover the non-empty chunk ids,
build the meta-table SQL, provision the xrootd export directories, and
write the empty-chunk manifest; a subprocess failure propagates at once
and ends the run. Returns the trace of performed actions and the result. -/
def loadPartitionedTable (cfg : LoaderConfig) (tcfg : TableDataConfig)
    (table schemaFile dataFilename : String) (env : PipelineEnv) (fs : FS) :
    PipelineTrace × Except SubprocessFailure Unit :=
  let pd := partitionDirname cfg.outDirname table
  let fs1 := partitionDataFs fs pd
  let pcmd := partitionCmdArgv cfg.python (partitionScriptname cfg)
    (partitionDirStr cfg.outDirname table) tcfg table cfg.stripes cfg.substripes dataFilename
  let tr0 : PipelineTrace :=
    { schemaFilesLoaded := [schemaFile], commandsRun := [pcmd], sqlExecuted := [],
      filesWritten := [], storeTables := [], fs := fs1 }
  match run_command env.partitionerExit env.partitionerOut with
  | Except.error e => (tr0, Except.error e)
  | Except.ok _ =>
    let lcmd := loaderCmdArgv cfg table
    let tr1 := { tr0 with commandsRun := tr0.commandsRun ++ [lcmd] }
    match run_command env.loaderExit env.loaderOut with
    | Except.error e => (tr1, Except.error e)
    | Except.ok _ =>
      let tables1 := env.tablesAfterLoad ++ [(table ++ "_1234567890").toList]
      let chunkList := workerGetNonEmptyChunkIds tables1
      let metaSql := masterCreateAndFeedMetaTable cfg.dbName table chunkList
      let fs2 := workerCreateXrootdExportDirs cfg.baseDir cfg.dbName chunkList tr1.fs
      let manifest := masterCreateEmptyChunksFile cfg.stripes chunkList
      ({ tr1 with
          sqlExecuted := [createTemplateSql cfg.dbName table, showTablesSql cfg.dbName, metaSql],
          storeTables := tables1,
          filesWritten := [(emptyChunksPath cfg.baseDir, manifest)],
          fs := fs2 }, Except.ok ())

/-! ## Helper lemmas -/

theorem writeLines_data : ∀ L : List Nat,
    (writeLines L).data = (L.map (fun i => (toString i).data ++ ['\n'])).flatten
  | [] => rfl
  | i :: rest => by
    have hnl : "\n".data = ['\n'] := rfl
    simp [writeLines, String.data_append, hnl, writeLines_data rest]

theorem mem_emptyChunksList {S : List Nat} {i : Nat} :
    i ∈ emptyChunksList S ↔ i < 7201 ∧ i ∉ S := by
  simp [emptyChunksList, List.mem_filter, List.mem_range]

/-! ## Claim C1 -/

/-- Claim C1 counterexample: the claim quantifies over every totalChunks N,
but at N = 10 with non-empty set {2,5,7} the produced manifest contains the
id 10, which the claimed manifest [0,10) \ {2,5,7} does not: the code uses
the fixed domain [0,7201) whatever the deployment's totalChunks is. -/
theorem c1_manifest_cex :
    10 ∈ emptyChunksList [2, 5, 7] ∧
    10 ∉ (List.range 10).filter (fun i => !(([2, 5, 7] : List Nat).contains i)) ∧
    emptyChunksList [2, 5, 7] ≠
      (List.range 10).filter (fun i => !(([2, 5, 7] : List Nat).contains i)) := by
  have h1 : 10 ∈ emptyChunksList [2, 5, 7] := mem_emptyChunksList.mpr (by decide)
  have h2 : 10 ∉ (List.range 10).filter (fun i => !(([2, 5, 7] : List Nat).contains i)) := by
    decide
  exact ⟨h1, h2, fun h => h2 (h ▸ h1)⟩

/-- Claim C1 (amended): masterCreateEmptyChunksFile uses the fixed chunk
domain [0,7201) and ignores its stripes argument; for every non-empty set
S ⊆ [0,7201) the manifest is the strictly ascending list of [0,7201) \ S,
S and the manifest partition [0,7201) and are disjoint, and the file is one
decimal integer per line, each line terminated by a newline, no header. -/
theorem c1_manifest (S : List Nat) (hS : ∀ x ∈ S, x < 7201) :
    (∀ i, i ∈ emptyChunksList S ↔ (i < 7201 ∧ i ∉ S)) ∧
    List.Pairwise (· < ·) (emptyChunksList S) ∧
    (∀ i, (i ∈ S ∨ i ∈ emptyChunksList S) ↔ i < 7201) ∧
    (∀ i, ¬(i ∈ S ∧ i ∈ emptyChunksList S)) ∧
    (∀ s1 s2, masterCreateEmptyChunksFile s1 S = masterCreateEmptyChunksFile s2 S) ∧
    (∀ s, (masterCreateEmptyChunksFile s S).data =
      ((emptyChunksList S).map (fun i => (toString i).data ++ ['\n'])).flatten) := by
  refine ⟨fun i => mem_emptyChunksList, ?_, ?_, ?_, fun s1 s2 => rfl,
    fun s => writeLines_data (emptyChunksList S)⟩
  · exact List.Pairwise.filter _ (List.pairwise_lt_range 7201)
  · intro i
    constructor
    · rintro (hi | hi)
      · exact hS i hi
      · exact (mem_emptyChunksList.mp hi).1
    · intro hi
      by_cases hm : i ∈ S
      · exact Or.inl hm
      · exact Or.inr (mem_emptyChunksList.mpr ⟨hi, hm⟩)
  · rintro i ⟨hi, hm⟩
    exact (mem_emptyChunksList.mp hm).2 hi

/-- Witness for C1 at S = {2,5,7}. -/
theorem c1_manifest_witness :
    (∀ i, i ∈ emptyChunksList [2, 5, 7] ↔ (i < 7201 ∧ i ∉ [2, 5, 7])) ∧
    List.Pairwise (· < ·) (emptyChunksList [2, 5, 7]) ∧
    (∀ i, (i ∈ [2, 5, 7] ∨ i ∈ emptyChunksList [2, 5, 7]) ↔ i < 7201) ∧
    (∀ i, ¬(i ∈ [2, 5, 7] ∧ i ∈ emptyChunksList [2, 5, 7])) ∧
    (∀ s1 s2, masterCreateEmptyChunksFile s1 [2, 5, 7] = masterCreateEmptyChunksFile s2 [2, 5, 7]) ∧
    (∀ s, (masterCreateEmptyChunksFile s [2, 5, 7]).data =
      ((emptyChunksList [2, 5, 7]).map (fun i => (toString i).data ++ ['\n'])).flatten) :=
  c1_manifest [2, 5, 7] (by decide)

/-! ## Claim C2 -/

/-- Claim C2 counterexample: with NonEmptyChunkSet {8000} (an id outside
the domain), masterCreateEmptyChunksFile produces the full-domain manifest
and silently drops the id — there is no error path in the function at all,
contradicting the claimed StateInconsistency report. -/
theorem c2_domain_cex :
    emptyChunksList [8000] = List.range 7201 ∧ 8000 ∉ emptyChunksList [8000] := by
  have h : emptyChunksList [8000] = List.range 7201 := by
    apply List.filter_eq_self.mpr
    intro a ha
    have halt : a < 7201 := List.mem_range.mp ha
    simp
    omega
  refine ⟨h, ?_⟩
  rw [h]
  simp [List.mem_range]

/-- Claim C2 (amended): an id outside the fixed domain [0,7201) is silently
dropped: the manifest (and the written file) for any chunk-id list equals
the one for the list restricted to in-domain ids, and no error is ever
reported (the builder is a total function into manifests). -/
theorem c2_domain (L : List Nat) :
    emptyChunksList L = emptyChunksList (L.filter (fun i => i < 7201)) ∧
    ∀ s, masterCreateEmptyChunksFile s L =
      masterCreateEmptyChunksFile s (L.filter (fun i => i < 7201)) := by
  have h : emptyChunksList L = emptyChunksList (L.filter (fun i => i < 7201)) := by
    unfold emptyChunksList
    apply List.filter_congr
    intro x hx
    have hxlt : x < 7201 := List.mem_range.mp hx
    by_cases hm : x ∈ L <;> simp [List.mem_filter, hm, hxlt]
  exact ⟨h, fun s => congrArg writeLines h⟩

/-! ## Claims C4 and C5: the chunk registry -/

theorem matchObjectChunk_filtered {n : List Char} {c : Nat}
    (h : matchObjectChunk n = some c) : "Object_".toList.isPrefixOf n = true := by
  by_contra hb
  rw [matchObjectChunk, if_neg hb] at h
  exact Option.noConfusion h

theorem mem_chunkIdsOfRows {rows : List (List Char)} {c : Nat} :
    c ∈ chunkIdsOfRows rows ↔ ∃ n ∈ rows, matchObjectChunk n = some c := by
  unfold chunkIdsOfRows
  rw [(List.perm_insertionSort _ _).mem_iff]
  exact List.mem_filterMap

theorem mem_workerGetNonEmptyChunkIds {tables : List (List Char)} {c : Nat} :
    c ∈ workerGetNonEmptyChunkIds tables ↔ ∃ n ∈ tables, matchObjectChunk n = some c := by
  unfold workerGetNonEmptyChunkIds
  rw [mem_chunkIdsOfRows]
  constructor
  · rintro ⟨n, hn, hm⟩
    exact ⟨n, (List.mem_filter.mp hn).1, hm⟩
  · rintro ⟨n, hn, hm⟩
    exact ⟨n, List.mem_filter.mpr ⟨hn, matchObjectChunk_filtered hm⟩, hm⟩

/-- Claim C4 counterexample: the relation names Object_07 and Object_7 are
distinct, both match the pattern, and both parse to the id 7; the
registry's output [7,7] is neither strictly increasing nor duplicate-free. -/
theorem c4_registry_cex :
    chunkIdsOfRows ["Object_07".toList, "Object_7".toList] = [7, 7] ∧
    ¬ List.Pairwise (· < ·) (chunkIdsOfRows ["Object_07".toList, "Object_7".toList]) ∧
    ¬ (chunkIdsOfRows ["Object_07".toList, "Object_7".toList]).Nodup := by
  refine ⟨by decide, ?_, ?_⟩ <;> decide

/-- Claim C4 (amended): the registry's base table name is hard-coded to
Object (the parameter is not consulted); given the relation names the
store returns, the output is the non-decreasing sort of the integer
suffixes of the names matching ^Object_([0-9]+)$ — a permutation of the
extracted ids — and it is empty exactly when no relation name matches (no
error is possible); it is not in general strictly increasing or
duplicate-free, since distinct names differing by leading zeros denote the
same id. -/
theorem c4_registry (rows : List (List Char)) :
    List.Sorted (· ≤ ·) (chunkIdsOfRows rows) ∧
    (chunkIdsOfRows rows).Perm (rows.filterMap matchObjectChunk) ∧
    (chunkIdsOfRows rows = [] ↔ rows.filterMap matchObjectChunk = []) := by
  refine ⟨List.sorted_insertionSort _ _, List.perm_insertionSort _ _, ?_, ?_⟩
  · intro h
    have hp := List.perm_insertionSort (fun a b : Nat => a ≤ b) (rows.filterMap matchObjectChunk)
    unfold chunkIdsOfRows at h
    rw [h] at hp
    exact (hp.symm.eq_nil)
  · intro h
    unfold chunkIdsOfRows
    rw [h]
    rfl

/-- Claim C5 counterexample: a store holding the single relation Object_5
with zero rows: the registry reports 5 as non-empty even though no chunk
table with at least one row exists. -/
theorem c5_rowcount_cex :
    workerGetNonEmptyChunkIdsStore [("Object_5".toList, 0)] = [5] ∧
    ∀ e ∈ [("Object_5".toList, (0 : Nat))], e.2 = 0 := by
  refine ⟨by decide, by decide⟩

/-- Claim C5 (amended): membership in the discovered set depends only on
relation names, never on row counts: c is reported if and only if some
relation whose name matches ^Object_([0-9]+)$ with suffix value c exists,
whatever its row count. -/
theorem c5_rowcount (store : List (List Char × Nat)) (c : Nat) :
    c ∈ workerGetNonEmptyChunkIdsStore store ↔
      ∃ e ∈ store, matchObjectChunk e.1 = some c := by
  unfold workerGetNonEmptyChunkIdsStore
  rw [mem_workerGetNonEmptyChunkIds]
  constructor
  · rintro ⟨n, hn, hm⟩
    rcases List.mem_map.mp hn with ⟨e, he, rfl⟩
    exact ⟨e, he, hm⟩
  · rintro ⟨e, he, hm⟩
    exact ⟨e.1, List.mem_map.mpr ⟨e, he, rfl⟩, hm⟩

/-! ## Claim C3: the meta table SQL -/

theorem isPrefixOf_self_append {α : Type} [BEq α] [LawfulBEq α] :
    ∀ (l t : List α), l.isPrefixOf (l ++ t) = true
  | [], _ => by simp [List.isPrefixOf]
  | a :: l, t => by simp [List.isPrefixOf, isPrefixOf_self_append l t]

theorem containsSub_append (pat l r : List Char) :
    containsSub pat (l ++ pat ++ r) = true := by
  induction l with
  | nil =>
    cases pat with
    | nil => cases r <;> simp [containsSub, List.isPrefixOf]
    | cons c cs =>
      rw [List.nil_append, List.cons_append]
      unfold containsSub
      rw [← List.cons_append, isPrefixOf_self_append]
      simp
  | cons a l ih =>
    rw [List.append_assoc, List.cons_append]
    unfold containsSub
    rw [← List.append_assoc, ih]
    simp

theorem foldl_sql_append (m : Nat → String) : ∀ (L : List Nat) (acc : String),
    L.foldl (fun sql c => sql ++ "\n" ++ m c) acc =
      acc ++ (L.map (fun c => "\n" ++ m c)).foldr (· ++ ·) ""
  | [], acc => by simp
  | c :: L, acc => by
    simp only [List.foldl, List.map, List.foldr]
    rw [foldl_sql_append m L (acc ++ "\n" ++ m c)]
    rw [String.append_assoc acc "\n" (m c), String.append_assoc]

theorem masterCreateAndFeedMetaTable_eq (db table : String) (L : List Nat) :
    masterCreateAndFeedMetaTable db table L =
      metaCreateSql table ++
        (L.map (fun c => "\n" ++ metaInsertSql db table c)).foldr (· ++ ·) "" :=
  foldl_sql_append _ L _

theorem metaBlock_split (db table : String) : ∀ (L : List Nat) (c : Nat), c ∈ L →
    ∃ l r, (((L.map (fun c => "\n" ++ metaInsertSql db table c)).foldr (· ++ ·) "")).data =
      l ++ (metaInsertSql db table c).data ++ r
  | [], c, h => absurd h (List.not_mem_nil c)
  | a :: L, c, h => by
    simp only [List.map, List.foldr]
    rcases List.mem_cons.mp h with rfl | hmem
    · refine ⟨"\n".data, (((L.map (fun c => "\n" ++ metaInsertSql db table c)).foldr
        (· ++ ·) "")).data, ?_⟩
      simp [String.data_append, List.append_assoc]
    · rcases metaBlock_split db table L c hmem with ⟨l, r, hl⟩
      refine ⟨("\n" ++ metaInsertSql db table a).data ++ l, r, ?_⟩
      simp [String.data_append, hl, List.append_assoc]

theorem metaInsert_occurs (db table : String) (L : List Nat) (c : Nat) (hc : c ∈ L) :
    containsSub (metaInsertSql db table c).data
      (masterCreateAndFeedMetaTable db table L).data = true := by
  rw [masterCreateAndFeedMetaTable_eq, String.data_append]
  rcases metaBlock_split db table L c hc with ⟨l, r, hl⟩
  rw [hl]
  have h := containsSub_append (metaInsertSql db table c).data
    ((metaCreateSql table).data ++ l) r
  simpa [List.append_assoc] using h

set_option maxRecDepth 20000 in
/-- Claim C3 counterexample: the SQL script generated for database
qservTest, table Object and chunk list [2,5] contains no DROP (nor
REPLACE, nor IF NOT EXISTS): a stale existing LSST__Object table is never
dropped or replaced first — the emitted plain CREATE TABLE fails if one
exists. -/
theorem c3_meta_table_cex :
    containsSub "DROP".data
      (masterCreateAndFeedMetaTable "qservTest" "Object" [2, 5]).data = false ∧
    containsSub "REPLACE".data
      (masterCreateAndFeedMetaTable "qservTest" "Object" [2, 5]).data = false ∧
    containsSub "IF NOT EXISTS".data
      (masterCreateAndFeedMetaTable "qservTest" "Object" [2, 5]).data = false := by
  refine ⟨?_, ?_, ?_⟩ <;> decide

/-- Claim C3 (amended): masterCreateAndFeedMetaTable emits `USE qservMeta;`
and a plain CREATE TABLE of LSST__t (it does not drop or replace a stale
existing table — the statement fails in that case), followed by exactly one
INSERT per chunk id c of L, in list order, selecting (primaryKey, chunkId,
subChunkId) from the chunk relation db.t_c; no chunk outside L is
referenced. -/
theorem c3_meta_table (db table : String) (L : List Nat) :
    masterCreateAndFeedMetaTable db table L =
      metaCreateSql table ++
        (L.map (fun c => "\n" ++ metaInsertSql db table c)).foldr (· ++ ·) "" ∧
    ∀ c ∈ L, containsSub (metaInsertSql db table c).data
      (masterCreateAndFeedMetaTable db table L).data = true :=
  ⟨masterCreateAndFeedMetaTable_eq db table L, fun c hc => metaInsert_occurs db table L c hc⟩

/-- Witness for C3: for database qservTest, table Object and chunk list
[2,5], the INSERT selecting from qservTest.Object_5 occurs in the emitted
script. -/
theorem c3_meta_table_witness :
    containsSub (metaInsertSql "qservTest" "Object" 5).data
      (masterCreateAndFeedMetaTable "qservTest" "Object" [2, 5]).data = true :=
  (c3_meta_table "qservTest" "Object" [2, 5]).2 5 (by decide)

/-! ## Claim C6: the partitioner command -/

/-- Claim C6 (confirmed): when the table's chunk-column-id is None (as
getDataConfig sets for the dependent Source table) the partitioner command
carries no --chunk-column flag, so the chunk assignment is inherited; when
it is present (227 for Object) the flag is passed with that index; and the
command always carries the output directory, chunk prefix, the
longitude (ra/theta) and latitude (decl/phi) column indices, the stripe
and sub-stripe counts, the delimiter, and the input file as the final
positional argument. The hypothesis rules out another argument textually
colliding with the flag literal. -/
theorem c6_partition_cmd (python scriptname dirname : String) (tcfg : TableDataConfig)
    (table stripes substripes dataFilename : String) (oRa oDecl sRa sDecl : Nat)
    (hclash : "--chunk-column" ∉ [python, scriptname, dirname, table,
      toString tcfg.raColumn, toString tcfg.declColumn, stripes, substripes,
      "\t", dataFilename]) :
    (tcfg.chunkColumnId = none → "--chunk-column" ∉
      partitionCmdArgv python scriptname dirname tcfg table stripes substripes dataFilename) ∧
    (∀ i, tcfg.chunkColumnId = some i → ∃ l r,
      partitionCmdArgv python scriptname dirname tcfg table stripes substripes dataFilename =
        l ++ ["--chunk-column", toString i] ++ r) ∧
    (∃ l r, partitionCmdArgv python scriptname dirname tcfg table stripes substripes dataFilename =
      l ++ ["--output-dir", dirname] ++ r) ∧
    (∃ l r, partitionCmdArgv python scriptname dirname tcfg table stripes substripes dataFilename =
      l ++ ["--chunk-prefix", table] ++ r) ∧
    (∃ l r, partitionCmdArgv python scriptname dirname tcfg table stripes substripes dataFilename =
      l ++ ["--theta-column", toString tcfg.raColumn] ++ r) ∧
    (∃ l r, partitionCmdArgv python scriptname dirname tcfg table stripes substripes dataFilename =
      l ++ ["--phi-column", toString tcfg.declColumn] ++ r) ∧
    (∃ l r, partitionCmdArgv python scriptname dirname tcfg table stripes substripes dataFilename =
      l ++ ["--num-stripes", stripes] ++ r) ∧
    (∃ l r, partitionCmdArgv python scriptname dirname tcfg table stripes substripes dataFilename =
      l ++ ["--num-sub-stripes", substripes] ++ r) ∧
    (∃ l r, partitionCmdArgv python scriptname dirname tcfg table stripes substripes dataFilename =
      l ++ ["--delimiter", "\t"] ++ r) ∧
    (partitionCmdArgv python scriptname dirname tcfg table stripes substripes
      dataFilename).getLast? = some dataFilename ∧
    (getDataConfig oRa oDecl sRa sDecl).sourceCfg.chunkColumnId = none ∧
    (getDataConfig oRa oDecl sRa sDecl).objectCfg.chunkColumnId = some 227 := by
  simp only [List.mem_cons, List.not_mem_nil, or_false] at hclash
  push_neg at hclash
  obtain ⟨h1, h2, h3, h4, h5, h6, h7, h8, h9, h10⟩ := hclash
  rcases hcc : tcfg.chunkColumnId with _ | i
  · refine ⟨?_, ?_, ?_, ?_, ?_, ?_, ?_, ?_, ?_, ?_, rfl, rfl⟩
    · intro _ hmem
      have hv : partitionCmdArgv python scriptname dirname tcfg table stripes substripes
          dataFilename = [python, scriptname, "--output-dir", dirname, "--chunk-prefix",
            table, "--theta-column", toString tcfg.raColumn, "--phi-column",
            toString tcfg.declColumn, "--num-stripes", stripes, "--num-sub-stripes",
            substripes, "--delimiter", "\t", dataFilename] := by
        rw [partitionCmdArgv, hcc]
        rfl
      rw [hv] at hmem
      simp only [List.mem_cons, List.not_mem_nil, or_false] at hmem
      rcases hmem with h | h | h | h | h | h | h | h | h | h | h | h | h | h | h | h | h <;>
        first
          | exact h1 h | exact h2 h | exact h3 h | exact h4 h | exact h5 h
          | exact h6 h | exact h7 h | exact h8 h | exact h9 h | exact h10 h
          | exact absurd h (by decide)
    · intro i hi
      exact Option.noConfusion hi
    · exact ⟨[python, scriptname], _, by rw [partitionCmdArgv, hcc]; rfl⟩
    · exact ⟨[python, scriptname, "--output-dir", dirname], _, by rw [partitionCmdArgv, hcc]; rfl⟩
    · exact ⟨[python, scriptname, "--output-dir", dirname, "--chunk-prefix", table], _,
        by rw [partitionCmdArgv, hcc]; rfl⟩
    · exact ⟨[python, scriptname, "--output-dir", dirname, "--chunk-prefix", table,
        "--theta-column", toString tcfg.raColumn], _, by rw [partitionCmdArgv, hcc]; rfl⟩
    · exact ⟨[python, scriptname, "--output-dir", dirname, "--chunk-prefix", table,
        "--theta-column", toString tcfg.raColumn, "--phi-column",
        toString tcfg.declColumn], _, by rw [partitionCmdArgv, hcc]; rfl⟩
    · exact ⟨[python, scriptname, "--output-dir", dirname, "--chunk-prefix", table,
        "--theta-column", toString tcfg.raColumn, "--phi-column",
        toString tcfg.declColumn, "--num-stripes", stripes], _,
        by rw [partitionCmdArgv, hcc]; rfl⟩
    · exact ⟨[python, scriptname, "--output-dir", dirname, "--chunk-prefix", table,
        "--theta-column", toString tcfg.raColumn, "--phi-column",
        toString tcfg.declColumn, "--num-stripes", stripes, "--num-sub-stripes",
        substripes], _, by rw [partitionCmdArgv, hcc]; rfl⟩
    · rw [partitionCmdArgv, hcc]
      exact List.getLast?_concat _
  · refine ⟨?_, ?_, ?_, ?_, ?_, ?_, ?_, ?_, ?_, ?_, rfl, rfl⟩
    · intro hn
      exact Option.noConfusion hn
    · intro j hj
      cases hj
      exact ⟨[python, scriptname, "--output-dir", dirname, "--chunk-prefix", table,
        "--theta-column", toString tcfg.raColumn, "--phi-column",
        toString tcfg.declColumn, "--num-stripes", stripes, "--num-sub-stripes",
        substripes, "--delimiter", "\t"], [dataFilename], by rw [partitionCmdArgv, hcc]⟩
    · exact ⟨[python, scriptname], _, by rw [partitionCmdArgv, hcc]; rfl⟩
    · exact ⟨[python, scriptname, "--output-dir", dirname], _, by rw [partitionCmdArgv, hcc]; rfl⟩
    · exact ⟨[python, scriptname, "--output-dir", dirname, "--chunk-prefix", table], _,
        by rw [partitionCmdArgv, hcc]; rfl⟩
    · exact ⟨[python, scriptname, "--output-dir", dirname, "--chunk-prefix", table,
        "--theta-column", toString tcfg.raColumn], _, by rw [partitionCmdArgv, hcc]; rfl⟩
    · exact ⟨[python, scriptname, "--output-dir", dirname, "--chunk-prefix", table,
        "--theta-column", toString tcfg.raColumn, "--phi-column",
        toString tcfg.declColumn], _, by rw [partitionCmdArgv, hcc]; rfl⟩
    · exact ⟨[python, scriptname, "--output-dir", dirname, "--chunk-prefix", table,
        "--theta-column", toString tcfg.raColumn, "--phi-column",
        toString tcfg.declColumn, "--num-stripes", stripes], _,
        by rw [partitionCmdArgv, hcc]; rfl⟩
    · exact ⟨[python, scriptname, "--output-dir", dirname, "--chunk-prefix", table,
        "--theta-column", toString tcfg.raColumn, "--phi-column",
        toString tcfg.declColumn, "--num-stripes", stripes, "--num-sub-stripes",
        substripes], _, by rw [partitionCmdArgv, hcc]; rfl⟩
    · rw [partitionCmdArgv, hcc]
      exact List.getLast?_concat _

/-- Witness for C6: a concrete Source-style command (chunk-column-id None)
omits the flag and ends in the input file. -/
theorem c6_partition_cmd_witness :
    "--chunk-column" ∉ partitionCmdArgv "py" "part.py" "/d" ⟨2, 4, none⟩
      "Source" "10" "2" "in.tsv" ∧
    (partitionCmdArgv "py" "part.py" "/d" ⟨2, 4, none⟩
      "Source" "10" "2" "in.tsv").getLast? = some "in.tsv" := by
  have h := c6_partition_cmd "py" "part.py" "/d" ⟨2, 4, none⟩ "Source" "10" "2" "in.tsv"
    0 1 2 3 (by decide)
  exact ⟨h.1 rfl, h.2.2.2.2.2.2.2.2.2.1⟩

/-! ## Filesystem lemmas -/

theorem pathLe_iff : ∀ d p : List String, pathLe d p = true ↔ ∃ t, d ++ t = p
  | [], p => by simp [pathLe]
  | a :: d, [] => by simp [pathLe]
  | a :: d, b :: p => by
    simp only [pathLe, Bool.and_eq_true, beq_iff_eq]
    rw [pathLe_iff d p]
    constructor
    · rintro ⟨rfl, t, rfl⟩
      exact ⟨t, rfl⟩
    · rintro ⟨t, ht⟩
      injection ht with h1 h2
      exact ⟨h1, t, h2⟩

theorem pathLe_append (d t : List String) : pathLe d (d ++ t) = true :=
  (pathLe_iff _ _).mpr ⟨t, rfl⟩

theorem pathLe_refl (p : List String) : pathLe p p = true :=
  (pathLe_iff p p).mpr ⟨[], List.append_nil p⟩

theorem pathLe_trans {a b c : List String} (h1 : pathLe a b = true)
    (h2 : pathLe b c = true) : pathLe a c = true := by
  rcases (pathLe_iff _ _).mp h1 with ⟨t1, rfl⟩
  rcases (pathLe_iff _ _).mp h2 with ⟨t2, rfl⟩
  exact (pathLe_iff _ _).mpr ⟨t1 ++ t2, (List.append_assoc _ _ _).symm⟩

theorem pathLe_take (p : List String) (k : Nat) : pathLe (p.take k) p = true :=
  (pathLe_iff _ _).mpr ⟨p.drop k, List.take_append_drop k p⟩

theorem pathLe_length {d p : List String} (h : pathLe d p = true) :
    d.length ≤ p.length := by
  rcases (pathLe_iff _ _).mp h with ⟨t, rfl⟩
  simp

theorem pathLe_of_le {d1 d2 p : List String} (h1 : pathLe d1 p = true)
    (h2 : pathLe d2 p = true) (hl : d1.length ≤ d2.length) : pathLe d1 d2 = true := by
  rcases (pathLe_iff _ _).mp h1 with ⟨t1, ht1⟩
  rcases (pathLe_iff _ _).mp h2 with ⟨t2, ht2⟩
  have e1 : p.take d1.length = d1 := by rw [← ht1]; exact List.take_left _ _
  have e2 : p.take d2.length = d2 := by rw [← ht2]; exact List.take_left _ _
  have e3 : d2.take d1.length = d1 := by
    rw [← e2, List.take_take, min_eq_left hl, e1]
  rw [← e3]
  exact pathLe_take d2 d1.length

theorem not_pathLe_rd_qd (b db : String) :
    pathLe (xrdResultDir b) (xrdQueryDir b db) = false := by
  simp [xrdResultDir, xrdQueryDir, pathLe]

theorem pathLe_qd_rd_exclusive {b db : String} {p : List String}
    (h1 : pathLe (xrdQueryDir b db) p = true)
    (h2 : pathLe (xrdResultDir b) p = true) : False := by
  have h := pathLe_of_le h2 h1 (by simp [xrdResultDir, xrdQueryDir])
  rw [not_pathLe_rd_qd] at h
  exact Bool.noConfusion h

theorem not_rd_le_of_qd_le {b db : String} {p : List String}
    (h : pathLe (xrdQueryDir b db) p = true) : pathLe (xrdResultDir b) p = false := by
  by_contra hb
  rw [Bool.not_eq_false] at hb
  exact pathLe_qd_rd_exclusive h hb

theorem not_qd_le_of_rd_le {b db : String} {p : List String}
    (h : pathLe (xrdResultDir b) p = true) : pathLe (xrdQueryDir b db) p = false := by
  by_contra hb
  rw [Bool.not_eq_false] at hb
  exact pathLe_qd_rd_exclusive hb h

theorem not_rd_le_marker {b db x : String} :
    pathLe (xrdResultDir b) (xrdQueryDir b db ++ [x]) = false :=
  not_rd_le_of_qd_le (pathLe_append _ _)

theorem mem_files_rmtree {fs : FS} {d p : List String} {n : Nat} :
    (p, n) ∈ (rmtree fs d).files ↔ (p, n) ∈ fs.files ∧ pathLe d p = false := by
  simp [rmtree, List.mem_filter]

theorem mem_dirs_rmtree {fs : FS} {d x : List String} :
    x ∈ (rmtree fs d).dirs ↔ x ∈ fs.dirs ∧ pathLe d x = false := by
  simp [rmtree, List.mem_filter]

theorem mem_dirs_makedirs {fs : FS} {d x : List String} :
    x ∈ (makedirs fs d).dirs ↔ x ∈ ancestors d ∨ x ∈ fs.dirs := by
  simp [makedirs]

theorem mem_files_touch {fs : FS} {p q : List String} {n : Nat} :
    (q, n) ∈ (touch fs p).files ↔ (q = p ∧ n = 0) ∨ ((q, n) ∈ fs.files ∧ q ≠ p) := by
  simp only [touch, List.mem_cons, List.mem_filter, Prod.mk.injEq, Bool.not_eq_true']
  constructor
  · rintro (⟨rfl, rfl⟩ | ⟨hm, hne⟩)
    · exact Or.inl ⟨rfl, rfl⟩
    · rw [beq_eq_false_iff_ne] at hne
      exact Or.inr ⟨hm, hne⟩
  · rintro (⟨rfl, rfl⟩ | ⟨hm, hne⟩)
    · exact Or.inl ⟨rfl, rfl⟩
    · exact Or.inr ⟨hm, beq_eq_false_iff_ne.mpr hne⟩

theorem mem_ancestors {p x : List String} :
    x ∈ ancestors p ↔ ∃ k, k < p.length ∧ x = p.take (k + 1) := by
  simp only [ancestors, List.mem_map, List.mem_range]
  constructor
  · rintro ⟨k, hk, rfl⟩
    exact ⟨k, hk, rfl⟩
  · rintro ⟨k, hk, rfl⟩
    exact ⟨k, hk, rfl⟩

theorem pathExists_iff {fs : FS} {p : List String} :
    pathExists fs p = true ↔ p ∈ fs.dirs ∨ ∃ n, (p, n) ∈ fs.files := by
  simp only [pathExists, Bool.or_eq_true, List.any_eq_true, beq_iff_eq]
  constructor
  · rintro (⟨d, hd, rfl⟩ | ⟨e, he, h1⟩)
    · exact Or.inl hd
    · exact Or.inr ⟨e.2, by rw [← h1]; exact he⟩
  · rintro (hd | ⟨n, hn⟩)
    · exact Or.inl ⟨p, hd, rfl⟩
    · exact Or.inr ⟨(p, n), hn, rfl⟩

theorem wf_file_dir {fs : FS} (hwf : wfFS fs = true) {p : List String} {n k : Nat}
    (hmem : (p, n) ∈ fs.files) (h1 : 0 < k) (h2 : k < p.length) : p.take k ∈ fs.dirs := by
  unfold wfFS at hwf
  rw [Bool.and_eq_true] at hwf
  have h := List.all_eq_true.mp hwf.1 (p, n) hmem
  have h3 := List.all_eq_true.mp h (k - 1)
    (List.mem_range.mpr (show k - 1 < p.length - 1 by omega))
  rcases List.any_eq_true.mp h3 with ⟨d, hd, hbeq⟩
  rw [beq_iff_eq] at hbeq
  rw [show k - 1 + 1 = k from by omega] at hbeq
  exact hbeq ▸ hd

theorem wf_dir_dir {fs : FS} (hwf : wfFS fs = true) {x : List String} {k : Nat}
    (hmem : x ∈ fs.dirs) (h1 : 0 < k) (h2 : k < x.length) : x.take k ∈ fs.dirs := by
  unfold wfFS at hwf
  rw [Bool.and_eq_true] at hwf
  have h := List.all_eq_true.mp hwf.2 x hmem
  have h3 := List.all_eq_true.mp h (k - 1) (List.mem_range.mpr (by omega))
  rcases List.any_eq_true.mp h3 with ⟨d, hd, hbeq⟩
  rw [beq_iff_eq] at hbeq
  rw [show k - 1 + 1 = k from by omega] at hbeq
  exact hbeq ▸ hd

theorem mem_files_makedirs {fs : FS} {d q : List String} {m : Nat} :
    (q, m) ∈ (makedirs fs d).files ↔ (q, m) ∈ fs.files := Iff.rfl

theorem dirs_foldl_touch (mk : Nat → List String) : ∀ (l : List Nat) (g : FS),
    (l.foldl (fun f c => touch f (mk c)) g).dirs = g.dirs
  | [], _ => rfl
  | a :: l, g => by rw [List.foldl_cons, dirs_foldl_touch mk l (touch g (mk a))]; rfl

theorem foldl_touch_files (qd : List String) :
    ∀ (l : List Nat) (g : FS) (p : List String) (n : Nat),
    ((p, n) ∈ (l.foldl (fun f c => touch f (qd ++ [toString c])) g).files ↔
      ((∃ c ∈ l, p = qd ++ [toString c]) ∧ n = 0) ∨
      ((p, n) ∈ g.files ∧ ∀ c ∈ l, p ≠ qd ++ [toString c]))
  | [], g, p, n => by simp
  | a :: l, g, p, n => by
    rw [List.foldl_cons, foldl_touch_files qd l (touch g (qd ++ [toString a])) p n]
    simp only [mem_files_touch, List.mem_cons]
    constructor
    · rintro (⟨⟨c, hc, rfl⟩, rfl⟩ | ⟨⟨rfl, rfl⟩ | ⟨hm, hne⟩, hall⟩)
      · exact Or.inl ⟨⟨c, Or.inr hc, rfl⟩, rfl⟩
      · exact Or.inl ⟨⟨a, Or.inl rfl, rfl⟩, rfl⟩
      · refine Or.inr ⟨hm, ?_⟩
        rintro c (rfl | hc)
        · exact hne
        · exact hall c hc
    · rintro (⟨⟨c, hca | hc, rfl⟩, rfl⟩ | ⟨hm, hall⟩)
      · by_cases hex : ∃ d ∈ l, qd ++ [toString c] = qd ++ [toString d]
        · exact Or.inl ⟨hex, rfl⟩
        · push_neg at hex
          exact Or.inr ⟨Or.inl ⟨by rw [hca], rfl⟩, hex⟩
      · exact Or.inl ⟨⟨c, hc, rfl⟩, rfl⟩
      · exact Or.inr ⟨Or.inr ⟨hm, hall a (Or.inl rfl)⟩, fun c hc => hall c (Or.inr hc)⟩

theorem files_after_clear {fs : FS} {qd : List String} (hwf : wfFS fs = true)
    (hne : qd ≠ []) {p : List String} {n : Nat} :
    (p, n) ∈ (if pathExists fs qd then rmtree fs qd else fs).files ↔
      ((p, n) ∈ fs.files ∧ pathLe qd p = false) := by
  by_cases hex : pathExists fs qd = true
  · rw [if_pos hex]; exact mem_files_rmtree
  · rw [if_neg hex]
    constructor
    · intro hm
      refine ⟨hm, ?_⟩
      by_contra hb
      rw [Bool.not_eq_false] at hb
      rcases (pathLe_iff _ _).mp hb with ⟨t, ht⟩
      cases t with
      | nil =>
        rw [List.append_nil] at ht
        subst ht
        exact hex (pathExists_iff.mpr (Or.inr ⟨n, hm⟩))
      | cons s ts =>
        have hlen : qd.length < p.length := by rw [← ht]; simp
        have hq : p.take qd.length = qd := by rw [← ht]; exact List.take_left _ _
        have hd := wf_file_dir hwf hm (List.length_pos.mpr hne) hlen
        rw [hq] at hd
        exact hex (pathExists_iff.mpr (Or.inl hd))
    · exact fun h => h.1

theorem dirs_after_clear {fs : FS} {qd : List String} (hwf : wfFS fs = true)
    (hne : qd ≠ []) {x : List String} :
    x ∈ (if pathExists fs qd then rmtree fs qd else fs).dirs ↔
      (x ∈ fs.dirs ∧ pathLe qd x = false) := by
  by_cases hex : pathExists fs qd = true
  · rw [if_pos hex]; exact mem_dirs_rmtree
  · rw [if_neg hex]
    constructor
    · intro hm
      refine ⟨hm, ?_⟩
      by_contra hb
      rw [Bool.not_eq_false] at hb
      rcases (pathLe_iff _ _).mp hb with ⟨t, ht⟩
      cases t with
      | nil =>
        rw [List.append_nil] at ht
        subst ht
        exact hex (pathExists_iff.mpr (Or.inl hm))
      | cons s ts =>
        have hlen : qd.length < x.length := by rw [← ht]; simp
        have hq : x.take qd.length = qd := by rw [← ht]; exact List.take_left _ _
        have hd := wf_dir_dir hwf hm (List.length_pos.mpr hne) hlen
        rw [hq] at hd
        exact hex (pathExists_iff.mpr (Or.inl hd))
    · exact fun h => h.1

theorem not_pathLe_qd_rd (b db : String) :
    pathLe (xrdQueryDir b db) (xrdResultDir b) = false := by
  simp [xrdQueryDir, xrdResultDir, pathLe]

theorem qd_mem_ancestors (b db : String) :
    xrdQueryDir b db ∈ ancestors (xrdQueryDir b db) :=
  mem_ancestors.mpr ⟨3, by simp [xrdQueryDir], rfl⟩

theorem rd_mem_ancestors (b : String) :
    xrdResultDir b ∈ ancestors (xrdResultDir b) :=
  mem_ancestors.mpr ⟨2, by simp [xrdResultDir], rfl⟩

theorem ancestors_qd_not_rd {b db : String} {x : List String}
    (hx : x ∈ ancestors (xrdQueryDir b db)) : pathLe (xrdResultDir b) x = false := by
  rcases mem_ancestors.mp hx with ⟨k, hk, rfl⟩
  have hk4 : k < 4 := by simpa [xrdQueryDir] using hk
  rcases k with _ | _ | _ | _ | k
  · show pathLe (xrdResultDir b) [b] = false
    simp [xrdResultDir, pathLe]
  · show pathLe (xrdResultDir b) [b, "xrootd-run"] = false
    simp [xrdResultDir, pathLe]
  · show pathLe (xrdResultDir b) [b, "xrootd-run", "q"] = false
    simp [xrdResultDir, pathLe]
  · exact not_pathLe_rd_qd b db
  · exact absurd hk4 (by omega)

theorem rd_ancestors_under {b : String} {x : List String}
    (hx : x ∈ ancestors (xrdResultDir b))
    (h : pathLe (xrdResultDir b) x = true) : x = xrdResultDir b := by
  rcases mem_ancestors.mp hx with ⟨k, hk, rfl⟩
  have hlen := pathLe_length h
  rw [List.length_take] at hlen
  have hk2 : k = 2 := by
    simp only [xrdResultDir] at hlen hk
    simp only [List.length_cons, List.length_nil] at hlen hk
    omega
  subst hk2
  rfl

theorem exportDirs_files {b db : String} {ids : List Nat} {fs : FS}
    (hwf : wfFS fs = true) (p : List String) (n : Nat) :
    (p, n) ∈ (workerCreateXrootdExportDirs b db ids fs).files ↔
      ((∃ c ∈ ids, p = xrdQueryDir b db ++ [toString c]) ∧ n = 0) ∨
      ((p, n) ∈ fs.files ∧ pathLe (xrdQueryDir b db) p = false ∧
        pathLe (xrdResultDir b) p = false) := by
  have hqne : xrdQueryDir b db ≠ [] := by simp [xrdQueryDir]
  simp only [workerCreateXrootdExportDirs]
  set fs1 := if pathExists fs (xrdQueryDir b db) then rmtree fs (xrdQueryDir b db) else fs
    with hfs1
  set fs3 := ids.foldl (fun f c => touch f (xrdQueryDir b db ++ [toString c]))
    (makedirs fs1 (xrdQueryDir b db)) with hfs3
  have h3 : ∀ q m, (q, m) ∈ fs3.files ↔
      ((∃ c ∈ ids, q = xrdQueryDir b db ++ [toString c]) ∧ m = 0) ∨
      ((q, m) ∈ fs.files ∧ pathLe (xrdQueryDir b db) q = false) := by
    intro q m
    rw [hfs3, foldl_touch_files, mem_files_makedirs, hfs1, files_after_clear hwf hqne]
    constructor
    · rintro (h | ⟨⟨hm, hq⟩, _⟩)
      · exact Or.inl h
      · exact Or.inr ⟨hm, hq⟩
    · rintro (h | ⟨hm, hq⟩)
      · exact Or.inl h
      · refine Or.inr ⟨⟨hm, hq⟩, ?_⟩
        rintro c _ rfl
        rw [pathLe_append] at hq
        exact Bool.noConfusion hq
  have hd3 : ∀ x, x ∈ fs3.dirs ↔
      x ∈ ancestors (xrdQueryDir b db) ∨
      (x ∈ fs.dirs ∧ pathLe (xrdQueryDir b db) x = false) := by
    intro x
    rw [hfs3, dirs_foldl_touch, mem_dirs_makedirs, hfs1, dirs_after_clear hwf hqne]
  have hstep4 : ∀ q m,
      ((q, m) ∈ (if pathExists fs3 (xrdResultDir b) then rmtree fs3 (xrdResultDir b)
          else fs3).files ↔
        ((q, m) ∈ fs3.files ∧ pathLe (xrdResultDir b) q = false)) := by
    intro q m
    by_cases hex : pathExists fs3 (xrdResultDir b) = true
    · rw [if_pos hex]; exact mem_files_rmtree
    · rw [if_neg hex]
      constructor
      · intro hm
        refine ⟨hm, ?_⟩
        by_contra hb
        rw [Bool.not_eq_false] at hb
        rcases (h3 q m).mp hm with ⟨⟨c, hc, rfl⟩, rfl⟩ | ⟨hmf, hql⟩
        · rw [not_rd_le_marker] at hb
          exact Bool.noConfusion hb
        · rcases (pathLe_iff _ _).mp hb with ⟨t, ht⟩
          cases t with
          | nil =>
            rw [List.append_nil] at ht
            subst ht
            exact hex (pathExists_iff.mpr (Or.inr ⟨m, hm⟩))
          | cons s ts =>
            have hlen : (xrdResultDir b).length < q.length := by rw [← ht]; simp
            have hq0 : q.take (xrdResultDir b).length = xrdResultDir b := by
              rw [← ht]; exact List.take_left _ _
            have hrdd := wf_file_dir hwf hmf
              (show 0 < (xrdResultDir b).length by simp [xrdResultDir]) hlen
            rw [hq0] at hrdd
            have : xrdResultDir b ∈ fs3.dirs :=
              (hd3 _).mpr (Or.inr ⟨hrdd, not_pathLe_qd_rd b db⟩)
            exact hex (pathExists_iff.mpr (Or.inl this))
      · exact fun h => h.1
  rw [mem_files_makedirs, hstep4 p n, h3 p n]
  constructor
  · rintro ⟨h | ⟨hm, hq⟩, hr⟩
    · exact Or.inl h
    · exact Or.inr ⟨hm, hq, hr⟩
  · rintro (⟨⟨c, hc, rfl⟩, rfl⟩ | ⟨hm, hq, hr⟩)
    · exact ⟨Or.inl ⟨⟨c, hc, rfl⟩, rfl⟩, not_rd_le_marker⟩
    · exact ⟨Or.inr ⟨hm, hq⟩, hr⟩

theorem exportDirs_dirs {b db : String} {ids : List Nat} {fs : FS}
    (hwf : wfFS fs = true) (x : List String) :
    x ∈ (workerCreateXrootdExportDirs b db ids fs).dirs ↔
      x ∈ ancestors (xrdResultDir b) ∨
      ((x ∈ ancestors (xrdQueryDir b db) ∨
        (x ∈ fs.dirs ∧ pathLe (xrdQueryDir b db) x = false)) ∧
        pathLe (xrdResultDir b) x = false) := by
  have hqne : xrdQueryDir b db ≠ [] := by simp [xrdQueryDir]
  simp only [workerCreateXrootdExportDirs]
  set fs1 := if pathExists fs (xrdQueryDir b db) then rmtree fs (xrdQueryDir b db) else fs
    with hfs1
  set fs3 := ids.foldl (fun f c => touch f (xrdQueryDir b db ++ [toString c]))
    (makedirs fs1 (xrdQueryDir b db)) with hfs3
  have hd3 : ∀ y, y ∈ fs3.dirs ↔
      y ∈ ancestors (xrdQueryDir b db) ∨
      (y ∈ fs.dirs ∧ pathLe (xrdQueryDir b db) y = false) := by
    intro y
    rw [hfs3, dirs_foldl_touch, mem_dirs_makedirs, hfs1, dirs_after_clear hwf hqne]
  have hstep4 : ∀ y,
      (y ∈ (if pathExists fs3 (xrdResultDir b) then rmtree fs3 (xrdResultDir b)
          else fs3).dirs ↔
        (y ∈ fs3.dirs ∧ pathLe (xrdResultDir b) y = false)) := by
    intro y
    by_cases hex : pathExists fs3 (xrdResultDir b) = true
    · rw [if_pos hex]; exact mem_dirs_rmtree
    · rw [if_neg hex]
      constructor
      · intro hm
        refine ⟨hm, ?_⟩
        by_contra hb
        rw [Bool.not_eq_false] at hb
        rcases (hd3 y).mp hm with hanc | ⟨hdd, hql⟩
        · rw [ancestors_qd_not_rd hanc] at hb
          exact Bool.noConfusion hb
        · rcases (pathLe_iff _ _).mp hb with ⟨t, ht⟩
          cases t with
          | nil =>
            rw [List.append_nil] at ht
            subst ht
            exact hex (pathExists_iff.mpr (Or.inl hm))
          | cons s ts =>
            have hlen : (xrdResultDir b).length < y.length := by rw [← ht]; simp
            have hq0 : y.take (xrdResultDir b).length = xrdResultDir b := by
              rw [← ht]; exact List.take_left _ _
            have hrdd := wf_dir_dir hwf hdd
              (show 0 < (xrdResultDir b).length by simp [xrdResultDir]) hlen
            rw [hq0] at hrdd
            have : xrdResultDir b ∈ fs3.dirs :=
              (hd3 _).mpr (Or.inr ⟨hrdd, not_pathLe_qd_rd b db⟩)
            exact hex (pathExists_iff.mpr (Or.inl this))
      · exact fun h => h.1
  rw [mem_dirs_makedirs, hstep4 x, hd3 x]

/-! ## Claim C7 -/

/-- Claim C7 (confirmed): workerCreateXrootdExportDirs removes the
table-scoped query directory if it exists, recreates it, and creates one
zero-byte marker file per given chunk id, named by the id: afterwards the
query directory exists and the files beneath it are exactly the zero-byte
markers of the given ids (the set of file names equals the set of ids). -/
theorem c7_export_dirs (b db : String) (ids : List Nat) (fs : FS)
    (hwf : wfFS fs = true) :
    xrdQueryDir b db ∈ (workerCreateXrootdExportDirs b db ids fs).dirs ∧
    ∀ p n, (((p, n) ∈ (workerCreateXrootdExportDirs b db ids fs).files ∧
        pathLe (xrdQueryDir b db) p = true) ↔
      ((∃ c ∈ ids, p = xrdQueryDir b db ++ [toString c]) ∧ n = 0)) := by
  constructor
  · rw [exportDirs_dirs hwf]
    exact Or.inr ⟨Or.inl (qd_mem_ancestors b db), not_pathLe_rd_qd b db⟩
  · intro p n
    rw [exportDirs_files hwf]
    constructor
    · rintro ⟨h | ⟨_, hq, _⟩, hle⟩
      · exact h
      · rw [hq] at hle
        exact Bool.noConfusion hle
    · rintro ⟨⟨c, hc, rfl⟩, rfl⟩
      exact ⟨Or.inl ⟨⟨c, hc, rfl⟩, rfl⟩, pathLe_append _ _⟩

/-- Witness for C7: on an empty filesystem with ids [3], the marker named
toString 3 with size 0 is exactly what lies beneath the query directory,
and the query directory exists. -/
theorem c7_export_dirs_witness :
    xrdQueryDir "b" "d" ∈ (workerCreateXrootdExportDirs "b" "d" [3] ⟨[], []⟩).dirs ∧
    ((xrdQueryDir "b" "d" ++ [toString 3], 0) ∈
        (workerCreateXrootdExportDirs "b" "d" [3] ⟨[], []⟩).files ∧
      pathLe (xrdQueryDir "b" "d") (xrdQueryDir "b" "d" ++ [toString 3]) = true) := by
  have h := c7_export_dirs "b" "d" [3] ⟨[], []⟩ (by decide)
  exact ⟨h.1, (h.2 (xrdQueryDir "b" "d" ++ [toString 3]) 0).mpr
    ⟨⟨3, List.mem_singleton.mpr rfl, rfl⟩, rfl⟩⟩

/-! ## Claim C10 -/

/-- Claim C10 (confirmed): workerCreateXrootdExportDirs also deletes (if
present) and recreates the shared xrootd result directory, leaving it
empty, and modifies nothing outside the query and result directories:
afterwards the result directory exists, holds no file and no proper
subdirectory, and every path under neither directory has unchanged file
and directory status. The hypotheses say the ancestors of the two
directories already exist, as os.makedirs otherwise creates them too. -/
theorem c10_result_dir_frame (b db : String) (ids : List Nat) (fs : FS)
    (hwf : wfFS fs = true)
    (hq : ∀ x ∈ ancestors (xrdQueryDir b db), x ≠ xrdQueryDir b db → x ∈ fs.dirs)
    (hr : ∀ x ∈ ancestors (xrdResultDir b), x ≠ xrdResultDir b → x ∈ fs.dirs) :
    xrdResultDir b ∈ (workerCreateXrootdExportDirs b db ids fs).dirs ∧
    (∀ p n, (p, n) ∈ (workerCreateXrootdExportDirs b db ids fs).files →
      pathLe (xrdResultDir b) p = false) ∧
    (∀ x, x ∈ (workerCreateXrootdExportDirs b db ids fs).dirs →
      pathLe (xrdResultDir b) x = true → x = xrdResultDir b) ∧
    (∀ p n, pathLe (xrdQueryDir b db) p = false → pathLe (xrdResultDir b) p = false →
      ((p, n) ∈ (workerCreateXrootdExportDirs b db ids fs).files ↔ (p, n) ∈ fs.files)) ∧
    (∀ x, pathLe (xrdQueryDir b db) x = false → pathLe (xrdResultDir b) x = false →
      (x ∈ (workerCreateXrootdExportDirs b db ids fs).dirs ↔ x ∈ fs.dirs)) := by
  refine ⟨?_, ?_, ?_, ?_, ?_⟩
  · rw [exportDirs_dirs hwf]
    exact Or.inl (rd_mem_ancestors b)
  · intro p n hm
    rcases (exportDirs_files hwf p n).mp hm with ⟨⟨c, hc, rfl⟩, rfl⟩ | ⟨_, _, hfr⟩
    · exact not_rd_le_marker
    · exact hfr
  · intro x hm hle
    rcases (exportDirs_dirs hwf x).mp hm with h | ⟨_, hfalse⟩
    · exact rd_ancestors_under h hle
    · rw [hfalse] at hle
      exact Bool.noConfusion hle
  · intro p n h1 h2
    rw [exportDirs_files hwf]
    constructor
    · rintro (⟨⟨c, hc, rfl⟩, rfl⟩ | ⟨hm, _, _⟩)
      · rw [pathLe_append] at h1
        exact Bool.noConfusion h1
      · exact hm
    · intro hm
      exact Or.inr ⟨hm, h1, h2⟩
  · intro x h1 h2
    rw [exportDirs_dirs hwf]
    constructor
    · rintro (h | ⟨h | ⟨hd, _⟩, _⟩)
      · refine hr x h ?_
        rintro rfl
        rw [pathLe_refl] at h2
        exact Bool.noConfusion h2
      · refine hq x h ?_
        rintro rfl
        rw [pathLe_refl] at h1
        exact Bool.noConfusion h1
      · exact hd
    · intro hd
      exact Or.inr ⟨Or.inr ⟨hd, h1⟩, h2⟩

/-- Witness for C10: on a filesystem holding just the ancestor directories,
the result directory is recreated and an unrelated path is untouched. -/
theorem c10_result_dir_frame_witness :
    xrdResultDir "b" ∈ (workerCreateXrootdExportDirs "b" "d" [3]
      ⟨[], [["b"], ["b", "xrootd-run"], ["b", "xrootd-run", "q"]]⟩).dirs ∧
    ((["z"], 5) ∈ (workerCreateXrootdExportDirs "b" "d" [3]
        ⟨[], [["b"], ["b", "xrootd-run"], ["b", "xrootd-run", "q"]]⟩).files ↔
      (["z"], 5) ∈ (⟨[], [["b"], ["b", "xrootd-run"],
        ["b", "xrootd-run", "q"]]⟩ : FS).files) := by
  have h := c10_result_dir_frame "b" "d" [3]
    ⟨[], [["b"], ["b", "xrootd-run"], ["b", "xrootd-run", "q"]]⟩
    (by decide) (by decide) (by decide)
  exact ⟨h.1, h.2.2.2.1 ["z"] 5 (by decide) (by decide)⟩

/-! ## Pipeline lemmas -/

theorem wf_rmtree {fs : FS} (hwf : wfFS fs = true) (d : List String) :
    wfFS (rmtree fs d) = true := by
  unfold wfFS
  rw [Bool.and_eq_true]
  constructor
  · rw [List.all_eq_true]
    rintro ⟨p, n⟩ hm
    rw [List.all_eq_true]
    intro k hk
    rw [List.any_eq_true]
    rcases mem_files_rmtree.mp hm with ⟨hm0, hno⟩
    have hk' : k < p.length - 1 := List.mem_range.mp hk
    have hdd : p.take (k + 1) ∈ fs.dirs := wf_file_dir hwf hm0 (by omega) (by omega)
    refine ⟨p.take (k + 1), ?_, by simp⟩
    rw [mem_dirs_rmtree]
    refine ⟨hdd, ?_⟩
    by_contra hb
    rw [Bool.not_eq_false] at hb
    have htr := pathLe_trans hb (pathLe_take p (k + 1))
    rw [hno] at htr
    exact Bool.noConfusion htr
  · rw [List.all_eq_true]
    intro x hx
    rw [List.all_eq_true]
    intro k hk
    rw [List.any_eq_true]
    rcases mem_dirs_rmtree.mp hx with ⟨hx0, hno⟩
    have hk' : k < x.length - 1 := List.mem_range.mp hk
    have hdd : x.take (k + 1) ∈ fs.dirs := wf_dir_dir hwf hx0 (by omega) (by omega)
    refine ⟨x.take (k + 1), ?_, by simp⟩
    rw [mem_dirs_rmtree]
    refine ⟨hdd, ?_⟩
    by_contra hb
    rw [Bool.not_eq_false] at hb
    have htr := pathLe_trans hb (pathLe_take x (k + 1))
    rw [hno] at htr
    exact Bool.noConfusion htr

theorem wf_makedirs {fs : FS} (hwf : wfFS fs = true) (d : List String) :
    wfFS (makedirs fs d) = true := by
  unfold wfFS
  rw [Bool.and_eq_true]
  constructor
  · rw [List.all_eq_true]
    rintro ⟨p, n⟩ hm
    rw [List.all_eq_true]
    intro k hk
    rw [List.any_eq_true]
    have hk' : k < p.length - 1 := List.mem_range.mp hk
    have hm0 : (p, n) ∈ fs.files := hm
    have hdd := wf_file_dir hwf hm0 (show 0 < k + 1 by omega) (show k + 1 < p.length by omega)
    exact ⟨p.take (k + 1), mem_dirs_makedirs.mpr (Or.inr hdd), by simp⟩
  · rw [List.all_eq_true]
    intro x hx
    rw [List.all_eq_true]
    intro k hk
    rw [List.any_eq_true]
    have hk' : k < x.length - 1 := List.mem_range.mp hk
    rcases mem_dirs_makedirs.mp hx with hanc | hdd
    · rcases mem_ancestors.mp hanc with ⟨j, hj, rfl⟩
      have hkk : k < (d.take (j + 1)).length - 1 := hk'
      rw [List.length_take] at hkk
      have hle : k + 1 ≤ j + 1 := by omega
      have hdl : k < d.length := by omega
      have htk : (d.take (j + 1)).take (k + 1) = d.take (k + 1) := by
        rw [List.take_take, min_eq_left hle]
      refine ⟨d.take (k + 1),
        mem_dirs_makedirs.mpr (Or.inl (mem_ancestors.mpr ⟨k, hdl, rfl⟩)), ?_⟩
      rw [htk]
      simp
    · have hdd2 := wf_dir_dir hwf hdd (show 0 < k + 1 by omega)
        (show k + 1 < x.length by omega)
      exact ⟨x.take (k + 1), mem_dirs_makedirs.mpr (Or.inr hdd2), by simp⟩

theorem wf_partitionDataFs {fs : FS} (hwf : wfFS fs = true) (pd : List String) :
    wfFS (partitionDataFs fs pd) = true := by
  unfold partitionDataFs
  by_cases hex : pathExists fs pd = true
  · rw [if_pos hex]
    exact wf_makedirs (wf_rmtree hwf pd) pd
  · rw [if_neg hex]
    exact wf_makedirs hwf pd

theorem partition_ne_xrootd (t : String) : t ++ "_partition" = "xrootd-run" → False := by
  intro h
  have hd : t.data ++ "_partition".data = "xrootd-run".data := by
    rw [← String.data_append, h]
  have hlen : t.data.length + "_partition".data.length = "xrootd-run".data.length := by
    rw [← List.length_append, hd]
  have h10 : "_partition".data.length = 10 := rfl
  have h10' : "xrootd-run".data.length = 10 := rfl
  rw [h10, h10'] at hlen
  have ht : t.data = [] := List.eq_nil_of_length_eq_zero (by omega)
  rw [ht, List.nil_append] at hd
  exact absurd hd (by decide)

theorem not_xr_le_of_partition_anc {b out table : String} {p : List String}
    (hanc : p ∈ ancestors (partitionDirname out table))
    (h : pathLe [b, "xrootd-run"] p = true) : False := by
  rcases mem_ancestors.mp hanc with ⟨k, hk, rfl⟩
  have hk2 : k < 2 := by simpa [partitionDirname] using hk
  rcases k with _ | _ | k
  · have hlen := pathLe_length h
    revert hlen
    show ¬ ([b, "xrootd-run"].length ≤ ((partitionDirname out table).take 1).length)
    simp [partitionDirname]
  · have hle : pathLe [b, "xrootd-run"] (partitionDirname out table) = true := h
    rw [pathLe_iff] at hle
    rcases hle with ⟨t0, ht⟩
    have hlen : (2 + t0.length = 2) := by
      have := congrArg List.length ht
      simpa [partitionDirname] using this
    have ht0 : t0 = [] := List.eq_nil_of_length_eq_zero (by omega)
    rw [ht0, List.append_nil] at ht
    unfold partitionDirname at ht
    injection ht with h1 h2
    injection h2 with h3 h4
    exact partition_ne_xrootd table h3.symm
  · exact absurd hk2 (by omega)

theorem partitionPrep_frame {fs : FS} {out table b : String} {p : List String}
    (hp : pathLe [b, "xrootd-run"] p = true) :
    (∀ n, ((p, n) ∈ (partitionDataFs fs (partitionDirname out table)).files ↔
      (p, n) ∈ fs.files)) ∧
    (p ∈ (partitionDataFs fs (partitionDirname out table)).dirs ↔ p ∈ fs.dirs) := by
  have hnot : pathLe (partitionDirname out table) p = false := by
    by_contra hb
    rw [Bool.not_eq_false] at hb
    have h2 := pathLe_of_le hb hp (by simp [partitionDirname])
    rw [pathLe_iff] at h2
    rcases h2 with ⟨t0, ht⟩
    have hlen : (2 + t0.length = 2) := by
      have := congrArg List.length ht
      simpa [partitionDirname] using this
    have ht0 : t0 = [] := List.eq_nil_of_length_eq_zero (by omega)
    rw [ht0, List.append_nil] at ht
    unfold partitionDirname at ht
    injection ht with h1 h2
    injection h2 with h3 h4
    exact partition_ne_xrootd table h3
  constructor
  · intro n
    unfold partitionDataFs
    rw [mem_files_makedirs]
    by_cases hex : pathExists fs (partitionDirname out table) = true
    · rw [if_pos hex, mem_files_rmtree]
      exact ⟨fun h => h.1, fun h => ⟨h, hnot⟩⟩
    · rw [if_neg hex]
  · unfold partitionDataFs
    rw [mem_dirs_makedirs]
    constructor
    · rintro (hanc | hin)
      · exact absurd hp (by intro hcon; exact not_xr_le_of_partition_anc hanc hcon)
      · by_cases hex : pathExists fs (partitionDirname out table) = true
        · rw [if_pos hex] at hin
          exact (mem_dirs_rmtree.mp hin).1
        · rw [if_neg hex] at hin
          exact hin
    · intro hin
      refine Or.inr ?_
      by_cases hex : pathExists fs (partitionDirname out table) = true
      · rw [if_pos hex, mem_dirs_rmtree]
        exact ⟨hin, hnot⟩
      · rw [if_neg hex]
        exact hin

theorem loader_notin_partition (cfg : LoaderConfig) (tcfg : TableDataConfig)
    (table dataFilename : String) :
    loaderCmdArgv cfg table ∉
      [partitionCmdArgv cfg.python (partitionScriptname cfg)
        (partitionDirStr cfg.outDirname table) tcfg table cfg.stripes cfg.substripes
        dataFilename] := by
  rw [List.mem_singleton]
  intro h
  have hl := congrArg List.length h
  rcases hcc : tcfg.chunkColumnId with _ | i <;>
    simp [loaderCmdArgv, partitionCmdArgv, hcc] at hl

/-! ## Claim C8 -/

/-- Claim C8 (confirmed; run_command is modelled from the spec): when the
partitioner subprocess exits with code 2, loadPartitionedTable reports a
subprocess failure carrying exit code 2; the only subprocess launched is
the partitioner (the chunk loader command is never run), no SQL is
executed (no metadata table), no file is written (no empty-chunk
manifest), and the xrootd export tree is untouched. -/
theorem c8_failfast (cfg : LoaderConfig) (tcfg : TableDataConfig)
    (table schemaFile dataFilename : String) (env : PipelineEnv) (fs : FS)
    (hexit : env.partitionerExit = 2) :
    (loadPartitionedTable cfg tcfg table schemaFile dataFilename env fs).2 =
      Except.error ⟨2, env.partitionerOut⟩ ∧
    (loadPartitionedTable cfg tcfg table schemaFile dataFilename env fs).1.commandsRun =
      [partitionCmdArgv cfg.python (partitionScriptname cfg)
        (partitionDirStr cfg.outDirname table) tcfg table cfg.stripes cfg.substripes
        dataFilename] ∧
    loaderCmdArgv cfg table ∉
      (loadPartitionedTable cfg tcfg table schemaFile dataFilename env fs).1.commandsRun ∧
    (loadPartitionedTable cfg tcfg table schemaFile dataFilename env fs).1.sqlExecuted = [] ∧
    (loadPartitionedTable cfg tcfg table schemaFile dataFilename env fs).1.filesWritten = [] ∧
    (∀ p, pathLe [cfg.baseDir, "xrootd-run"] p = true →
      ((∀ n, ((p, n) ∈ (loadPartitionedTable cfg tcfg table schemaFile dataFilename
          env fs).1.fs.files ↔ (p, n) ∈ fs.files)) ∧
        (p ∈ (loadPartitionedTable cfg tcfg table schemaFile dataFilename
          env fs).1.fs.dirs ↔ p ∈ fs.dirs))) := by
  have hrun : run_command env.partitionerExit env.partitionerOut =
      Except.error ⟨2, env.partitionerOut⟩ := by
    rw [hexit]
    rfl
  simp only [loadPartitionedTable, hrun]
  refine ⟨trivial, trivial, loader_notin_partition cfg tcfg table dataFilename,
    trivial, trivial, ?_⟩
  intro p hp
  exact partitionPrep_frame hp

/-- Witness for C8 at a concrete configuration with partitioner exit 2. -/
theorem c8_failfast_witness :
    (loadPartitionedTable ⟨"py", "b", "o", "db", "10", "2", "u", "pw", "h", "3306"⟩
      ⟨0, 1, none⟩ "Object" "s.sql" "in.tsv" ⟨2, "boom", 0, "", []⟩ ⟨[], []⟩).2 =
      Except.error ⟨2, "boom"⟩ ∧
    loaderCmdArgv ⟨"py", "b", "o", "db", "10", "2", "u", "pw", "h", "3306"⟩ "Object" ∉
      (loadPartitionedTable ⟨"py", "b", "o", "db", "10", "2", "u", "pw", "h", "3306"⟩
        ⟨0, 1, none⟩ "Object" "s.sql" "in.tsv" ⟨2, "boom", 0, "", []⟩ ⟨[], []⟩).1.commandsRun := by
  have h := c8_failfast ⟨"py", "b", "o", "db", "10", "2", "u", "pw", "h", "3306"⟩
    ⟨0, 1, none⟩ "Object" "s.sql" "in.tsv" ⟨2, "boom", 0, "", []⟩ ⟨[], []⟩ rfl
  exact ⟨h.1, h.2.2.1⟩

/-! ## Claim C9 -/

/-- Claim C9 (confirmed): in every successful loadPartitionedTable run for
table Object, the template relation Object_1234567890 is created strictly
before chunk discovery (its CREATE precedes the SHOW TABLES in the
executed-SQL order); because its name matches ^Object_([0-9]+)$ the
discovered non-empty chunk set contains 1234567890; consequently a marker
file named 1234567890 is provisioned in the export query directory and the
meta-table script contains the INSERT selecting from Object_1234567890. -/
theorem c9_template_chunk (cfg : LoaderConfig) (tcfg : TableDataConfig)
    (schemaFile dataFilename : String) (env : PipelineEnv) (fs : FS)
    (hpart : env.partitionerExit = 0) (hload : env.loaderExit = 0)
    (hwf : wfFS fs = true) :
    (loadPartitionedTable cfg tcfg "Object" schemaFile dataFilename env fs).2 =
      Except.ok () ∧
    1234567890 ∈ workerGetNonEmptyChunkIds
      (env.tablesAfterLoad ++ [("Object" ++ "_1234567890").toList]) ∧
    (∃ i j, i < j ∧
      (loadPartitionedTable cfg tcfg "Object" schemaFile dataFilename
        env fs).1.sqlExecuted.get? i = some (createTemplateSql cfg.dbName "Object") ∧
      (loadPartitionedTable cfg tcfg "Object" schemaFile dataFilename
        env fs).1.sqlExecuted.get? j = some (showTablesSql cfg.dbName)) ∧
    ((xrdQueryDir cfg.baseDir cfg.dbName ++ [toString 1234567890], 0) ∈
      (loadPartitionedTable cfg tcfg "Object" schemaFile dataFilename env fs).1.fs.files) ∧
    (∃ s, (loadPartitionedTable cfg tcfg "Object" schemaFile dataFilename
        env fs).1.sqlExecuted.get? 2 = some s ∧
      containsSub (metaInsertSql cfg.dbName "Object" 1234567890).data s.data = true) := by
  have hrun1 : run_command env.partitionerExit env.partitionerOut =
      Except.ok env.partitionerOut := by
    rw [hpart]
    rfl
  have hrun2 : run_command env.loaderExit env.loaderOut = Except.ok env.loaderOut := by
    rw [hload]
    rfl
  have hmem : 1234567890 ∈ workerGetNonEmptyChunkIds
      (env.tablesAfterLoad ++ [("Object" ++ "_1234567890").toList]) :=
    mem_workerGetNonEmptyChunkIds.mpr ⟨("Object" ++ "_1234567890").toList,
      List.mem_append_right _ (List.mem_singleton.mpr rfl), by decide⟩
  simp only [loadPartitionedTable, hrun1, hrun2]
  refine ⟨trivial, hmem, ⟨0, 1, by omega, rfl, rfl⟩, ?_, ?_⟩
  · rw [exportDirs_files (wf_partitionDataFs hwf _)]
    exact Or.inl ⟨⟨1234567890, hmem, rfl⟩, rfl⟩
  · exact ⟨_, rfl, metaInsert_occurs _ _ _ _ hmem⟩

/-- Witness for C9 at a concrete configuration with both subprocesses
succeeding on an empty filesystem and an empty loaded-table set. -/
theorem c9_template_chunk_witness :
    (loadPartitionedTable ⟨"py", "b", "o", "db", "10", "2", "u", "pw", "h", "3306"⟩
      ⟨0, 1, some 227⟩ "Object" "s.sql" "in.tsv" ⟨0, "", 0, "", []⟩ ⟨[], []⟩).2 =
      Except.ok () ∧
    1234567890 ∈ workerGetNonEmptyChunkIds ([] ++ [("Object" ++ "_1234567890").toList]) ∧
    ((xrdQueryDir "b" "db" ++ [toString 1234567890], 0) ∈
      (loadPartitionedTable ⟨"py", "b", "o", "db", "10", "2", "u", "pw", "h", "3306"⟩
        ⟨0, 1, some 227⟩ "Object" "s.sql" "in.tsv" ⟨0, "", 0, "", []⟩ ⟨[], []⟩).1.fs.files) := by
  have h := c9_template_chunk ⟨"py", "b", "o", "db", "10", "2", "u", "pw", "h", "3306"⟩
    ⟨0, 1, some 227⟩ "s.sql" "in.tsv" ⟨0, "", 0, "", []⟩ ⟨[], []⟩ rfl rfl (by decide)
  exact ⟨h.1, h.2.1, h.2.2.2.1⟩

end QservLoader
